import Mathlib

/-!
Shallow embedding of the model-card extraction and risk-scoring program
(files streamlit_app.py and hf_modelcard_to_md.py).

Conventions of the embedding:
* Python strings are Lean `String` (a list of characters); `str.strip()`,
  `str.lower()` and `str.replace(" ", "-")` are modelled character-wise
  (`stripChars`, `lowerChar`, `spaceHyphenChar`).  `str.lower()` is modelled
  on its ASCII range, which is the range exercised by the program's data.
* Python numbers (ints and floats) are modelled as exact rationals `ℚ`;
  the program only compares and adds them.
* A Python value that can be absent or `None` is an `Option`; the generic
  dict lookups performed by `evaluate_dimension` go through `PyVal`, a small
  model of Python values with their truthiness.
* `re.search(r"huggingface\.co/(?:models/)?([^/?#]+/[^/?#]+)", s)` is
  modelled by `searchGroup`, which scans left to right for the literal,
  prefers the optional "models/" component (greedy `?`), and captures the
  two maximal runs of characters outside `/?#` separated by a slash, exactly
  as the backtracking regex engine resolves this pattern.
-/

/-- Characters excluded by the character class in the pattern, i.e. the
class complement in the regex fragment given by the three characters
slash, question mark and hash. -/
def badChar (c : Char) : Bool := c == '/' || c == '?' || c == '#'

/-- Whitespace test used to model the ends trimmed by Python's strip. -/
def isWS (c : Char) : Bool := c.isWhitespace

/-- Model of Python str.strip: drop whitespace from both ends. -/
def stripChars (l : List Char) : List Char :=
  ((l.dropWhile isWS).reverse.dropWhile isWS).reverse

/-- String wrapper for `stripChars`, modelling url_or_id.strip(). -/
def pyStrip (s : String) : String := ⟨stripChars s.data⟩

/-- The uppercase-to-lowercase mapping of Python str.lower on the ASCII
range, as a lookup table. -/
def lowerTable : List (Char × Char) :=
  [('A', 'a'), ('B', 'b'), ('C', 'c'), ('D', 'd'), ('E', 'e'), ('F', 'f'),
   ('G', 'g'), ('H', 'h'), ('I', 'i'), ('J', 'j'), ('K', 'k'), ('L', 'l'),
   ('M', 'm'), ('N', 'n'), ('O', 'o'), ('P', 'p'), ('Q', 'q'), ('R', 'r'),
   ('S', 's'), ('T', 't'), ('U', 'u'), ('V', 'v'), ('W', 'w'), ('X', 'x'),
   ('Y', 'y'), ('Z', 'z')]

/-- Model of Python str.lower on one character (ASCII range): uppercase
letters map to their lowercase counterpart, everything else is kept. -/
def lowerChar (c : Char) : Char := (lowerTable.lookup c).getD c

/-- Model of Python str.lower on a whole string. -/
def lowerStr (s : String) : String := ⟨s.data.map lowerChar⟩

/-- Model of the single-character replacement str.replace(" ", "-"). -/
def spaceHyphenChar (c : Char) : Char := if c = ' ' then '-' else c

/-- Model of Python substring membership, the expression k in txt:
true when needle occurs contiguously in hay (the empty needle always
occurs). -/
def hasSub : List Char → List Char → Bool
  | [], n => n.isEmpty
  | h :: t, n => List.isPrefixOf n (h :: t) || hasSub t n

/-- The strip-lower-replace chain of normalize_license:
lic.strip().lower().replace(" ", "-"), character-level. -/
def normCore (l : List Char) : List Char :=
  ((stripChars l).map lowerChar).map spaceHyphenChar

/-- The alias table of normalize_license (streamlit_app.py lines 46-57),
applied as aliases.get(s, s). -/
def aliasGet (s : String) : String :=
  if s = "apache2" then "apache-2.0"
  else if s = "apache-2" then "apache-2.0"
  else if s = "apache-2.0" then "apache-2.0"
  else if s = "mit" then "mit"
  else if s = "bsd" then "bsd-3-clause"
  else if s = "bsd-3" then "bsd-3-clause"
  else if s = "gpl" then "gpl-3.0"
  else if s = "gpl-3" then "gpl-3.0"
  else if s = "cc-by-nc" then "cc-by-nc-4.0"
  else if s = "cc-by-nc-4.0" then "cc-by-nc-4.0"
  else s

/-- normalize_license (streamlit_app.py lines 42-58).  The argument is the
record's license: `none` models Python None / a missing key, and the empty
string is the other falsy string, both mapped to "unknown" by the
`if not lic` guard before any normalization happens. -/
def normalize_license : Option String → String
  | none => "unknown"
  | some l => if l = "" then "unknown" else aliasGet ⟨normCore l.data⟩

/-- Model of a Python value as stored in the meta dict, together with the
fields needed to evaluate truthiness the way bool() does. -/
inductive PyVal where
  | none
  | str (s : String)
  | num (q : ℚ)
  | strList (xs : List String)
deriving DecidableEq

/-- Python truthiness of a `PyVal`: None is falsy, a string or list is
truthy when nonempty, a number when nonzero. -/
def PyVal.truthy : PyVal → Bool
  | .none => false
  | .str s => !(s = "")
  | .num q => !(q = 0)
  | .strList xs => !xs.isEmpty

/-- A fact record: the meta dict assembled by build_markdown_and_meta
(streamlit_app.py lines 318-329) and consumed by the scoring engine.
training_data is kept as a separate field even though the builder aliases
it to datasets, because evaluate_dimension reads it independently through
the dict. -/
structure FactRecord where
  repo_id : String
  license : Option String
  datasets : List String
  training_data : List String
  data_license : Option String
  downloads_30d : ℚ
  last_modified : Option String
  likes : ℚ
  params_b : Option ℚ
  card_text : String
deriving DecidableEq

/-- Dict lookup meta.get(f) on a fact record: the ten keys present in the
meta dict, any other key giving None. -/
def FactRecord.get (m : FactRecord) (f : String) : PyVal :=
  if f = "repo_id" then .str m.repo_id
  else if f = "license" then match m.license with
    | some s => .str s
    | none => .none
  else if f = "datasets" then .strList m.datasets
  else if f = "training_data" then .strList m.training_data
  else if f = "data_license" then match m.data_license with
    | some s => .str s
    | none => .none
  else if f = "downloads_30d" then .num m.downloads_30d
  else if f = "last_modified" then match m.last_modified with
    | some s => .str s
    | none => .none
  else if f = "likes" then .num m.likes
  else if f = "params_b" then match m.params_b with
    | some q => .num q
    | none => .none
  else if f = "card_text" then .str m.card_text
  else .none

/-- The risk policy: the JSON structure of DEFAULT_POLICY / risk_policy.json
(streamlit_app.py lines 68-97), flattened into one record. -/
structure Policy where
  weights : List (String × ℚ)
  licenseAllow : List String
  licenseWarn : List String
  licenseDeny : List String
  trustedOwners : List String
  minDownloads30d : ℚ
  requireAnyOf : List String
  keywordsOk : List String
  keywordsBad : List String
  maxParamsB : ℚ
  warnParamsB : ℚ
deriving DecidableEq

/-- DEFAULT_POLICY (streamlit_app.py lines 68-97). -/
def DEFAULT_POLICY : Policy where
  weights := [("license", 2), ("data_transparency", 2),
    ("security_provenance", 2), ("maturity_support", 1),
    ("compliance_alignment", 2), ("technical_feasibility", 1)]
  licenseAllow := ["apache-2.0", "mit", "bsd-3-clause", "bsd-2-clause"]
  licenseWarn := ["cc-by-4.0", "lgpl-3.0", "mpl-2.0", "epl-2.0"]
  licenseDeny := ["cc-by-nc-4.0", "gpl-3.0", "proprietary", "unknown",
    "no-license"]
  trustedOwners := ["meta-llama", "mistralai", "tiiuae", "microsoft",
    "google", "huggingface"]
  minDownloads30d := 1000
  requireAnyOf := ["datasets", "training_data", "data_license"]
  keywordsOk := ["hipaa", "pci", "gdpr", "pii handling", "privacy"]
  keywordsBad := ["no restrictions", "unrestricted", "not for production"]
  maxParamsB := 70
  warnParamsB := 20

/-- Dict lookup with default, policy["weights"].get(d, 1). -/
def wget (w : List (String × ℚ)) (d : String) : ℚ :=
  (List.lookup d w).getD 1

/-- Result of one dimension evaluator: raw score and rationale. -/
structure DimResult where
  score : ℕ
  rationale : String
deriving DecidableEq

def evaluate_dimension (name : String) (meta : FactRecord)
    (policy : Policy) : DimResult :=
  if name = "license" then
    let lic := normalize_license meta.license
    if lic ∈ policy.licenseAllow then
      ⟨0, "License " ++ lic ++ " is allowed"⟩
    else if lic ∈ policy.licenseWarn then
      ⟨1, "License " ++ lic ++ " requires caution"⟩
    else if lic ∈ policy.licenseDeny then
      ⟨2, "License " ++ lic ++ " is not permitted"⟩
    else ⟨2, "License unknown or missing"⟩
  else if name = "data_transparency" then
    let hasAny := policy.requireAnyOf.any fun f => (meta.get f).truthy
    if hasAny then ⟨0, "Datasets/training data disclosed"⟩
    else ⟨1, "Data sources unclear"⟩
  else if name = "security_provenance" then
    let owner := lowerStr ⟨meta.repo_id.data.takeWhile (fun c => !(c == '/'))⟩
    let downloads := meta.downloads_30d
    let trusted := owner ∈ policy.trustedOwners.map lowerStr
    if trusted then ⟨0, "Trusted owner " ++ owner⟩
    else if downloads ≥ policy.minDownloads30d then
      ⟨1, "Community model with healthy adoption (" ++ toString downloads
        ++ " downloads/30d)"⟩
    else ⟨2, "Low-signal provenance (owner not trusted, low adoption)"⟩
  else if name = "maturity_support" then
    let lastModTruthy := match meta.last_modified with
      | some s => !(s = "")
      | none => false
    if lastModTruthy || meta.likes > 200 then
      ⟨0, "Active or well-liked repository"⟩
    else ⟨1, "Limited maturity signals"⟩
  else if name = "compliance_alignment" then
    let txt := lowerStr meta.card_text
    let bad := policy.keywordsBad.any fun k => hasSub txt.data k.data
    let ok := policy.keywordsOk.any fun k => hasSub txt.data k.data
    if bad then ⟨2, "Problematic compliance language in card"⟩
    else if ok then ⟨0, "Mentions compliance considerations"⟩
    else ⟨1, "No explicit compliance guidance in card"⟩
  else if name = "technical_feasibility" then
    match meta.params_b with
    | none => ⟨1, "Model size not stated; capacity risk unknown"⟩
    | some p =>
      if p > policy.maxParamsB then
        ⟨2, "Very large model (~" ++ toString p
          ++ "B) may exceed infra appetite"⟩
      else if p > policy.warnParamsB then
        ⟨1, "Large model (~" ++ toString p
          ++ "B); review infra cost/latency"⟩
      else ⟨0, "Model size (~" ++ toString p ++ "B) within appetite"⟩
  else ⟨1, "Not evaluated"⟩

/-- The fixed dimension list of score_model (streamlit_app.py line 258). -/
def dims : List String :=
  ["license", "data_transparency", "security_provenance",
   "maturity_support", "compliance_alignment", "technical_feasibility"]

/-- Per-dimension entry of the details mapping built by score_model. -/
structure Detail where
  score : ℕ
  rationale : String
  weight : ℚ
  weighted : ℚ
deriving DecidableEq

/-- Aggregate output of score_model.  `pct` is the exact ratio the code
computes and bands on; the rounded display percentage of the Python dict
is derived from it and is presentation only. -/
structure ScoreReport where
  total : ℚ
  maxTotal : ℚ
  band : String
  pct : ℚ
  details : List (String × Detail)
deriving DecidableEq

/-- score_model (streamlit_app.py lines 257-270): weighted sum over the
six dimensions, maximum possible 2 per weight unit, percentage with the
division-by-zero guard, and the Green/Yellow/Red banding. -/
def score_model (meta : FactRecord) (policy : Policy) : ScoreReport :=
  let total := dims.foldl
    (fun acc d =>
      acc + ((evaluate_dimension d meta policy).score : ℚ) *
        wget policy.weights d) 0
  let maxTotal := dims.foldl (fun acc d => acc + 2 * wget policy.weights d) 0
  let details := dims.map fun d =>
    let w := wget policy.weights d
    let res := evaluate_dimension d meta policy
    (d, (⟨res.score, res.rationale, w, (res.score : ℚ) * w⟩ : Detail))
  let pct := if maxTotal = 0 then 0 else total / maxTotal
  let band := if pct ≤ 1/4 then "Green"
    else if pct ≤ 3/5 then "Yellow" else "Red"
  ⟨total, maxTotal, band, pct, details⟩

/-- Outcome of attempting open(path) followed by json.load(f) in
load_policy: the file may be missing (FileNotFoundError), may exist but
fail to open or parse (any other exception, e.g. PermissionError or
json.JSONDecodeError), or may yield a policy value. -/
inductive FileRead where
  | notFound
  | failed
  | content (p : Policy)
deriving DecidableEq

/-- load_policy (streamlit_app.py lines 99-104): the try/except catches
only FileNotFoundError and returns DEFAULT_POLICY for it; every other
exception of the read/parse propagates to the caller, modelled as
`Except.error`. -/
def load_policy : FileRead → Except Unit Policy
  | .content p => .ok p
  | .notFound => .ok DEFAULT_POLICY
  | .failed => .error ()

/-- The literal part of the pattern, the URL host segment with its
trailing slash. -/
def litHF : List Char := "huggingface.co/".data

/-- The optional path component of the pattern. -/
def litModels : List Char := "models/".data

/-- One attempt of the capture group at a fixed position: the group
two maximal nonempty runs of characters outside the class, joined by a
slash.  Greedy runs with backtracking collapse to exactly this: a maximal
run, a mandatory slash immediately after it, and a second maximal run. -/
def tryCapture (t : List Char) : Option (List Char) :=
  let A := t.takeWhile fun c => !badChar c
  let rest0 := t.dropWhile fun c => !badChar c
  if A = [] then none
  else match rest0 with
    | '/' :: rest =>
      let B := rest.takeWhile fun c => !badChar c
      if B = [] then none else some (A ++ '/' :: B)
    | _ => none

/-- One attempt of the whole pattern at a fixed position: match the
literal, then prefer the optional "models/" component (greedy question
mark, falling back without it), then the capture group. -/
def tryAt (u : List Char) : Option (List Char) :=
  if litHF <+: u then
    let rest := u.drop litHF.length
    if litModels <+: rest then
      match tryCapture (rest.drop litModels.length) with
      | some r => some r
      | none => tryCapture rest
    else tryCapture rest
  else none

/-- re.search over the whole string: try the pattern at each position from
the left, returning the first captured group. -/
def searchGroup : List Char → Option (List Char)
  | [] => none
  | c :: t =>
    match tryAt (c :: t) with
    | some r => some r
    | none => searchGroup t

/-- extract_repo_id of streamlit_app.py (lines 33-35): the captured
owner/name group when the pattern matches, else the stripped input. -/
def extract_repo_id (url_or_id : String) : String :=
  match searchGroup url_or_id.data with
  | some r => ⟨r⟩
  | none => pyStrip url_or_id

namespace hf_modelcard_to_md

/-- extract_repo_id of hf_modelcard_to_md.py (lines 6-10): identical
pattern, but the fallback returns the input without stripping. -/
def extract_repo_id (url_or_id : String) : String :=
  match searchGroup url_or_id.data with
  | some r => ⟨r⟩
  | none => url_or_id

end hf_modelcard_to_md

/-- Aliasing view of a loaded policy: load_policy's FileNotFoundError
branch returns the module-level DEFAULT_POLICY object itself (line 104,
no copy is made), while a successful json.load allocates a fresh object. -/
inductive PolicyRef where
  | globalDefault
  | fresh (p : Policy)
deriving DecidableEq

/-- The process state carrying the current value of the module-level
DEFAULT_POLICY object, which in-place mutation can change. -/
structure ProcState where
  defaultPolicy : Policy
deriving DecidableEq

/-- load_policy at the object-identity level: which object the caller
receives. -/
def load_policy_ref : FileRead → Except Unit PolicyRef
  | .content p => .ok (.fresh p)
  | .notFound => .ok .globalDefault
  | .failed => .error ()

/-- Dereference a policy reference in the current process state. -/
def readPolicy (σ : ProcState) : PolicyRef → Policy
  | .globalDefault => σ.defaultPolicy
  | .fresh p => p

/-- Replace the entry for one dimension in the weights dict. -/
def updateWeight (w : List (String × ℚ)) (d : String) (v : ℚ) :
    List (String × ℚ) :=
  w.map fun kv => if kv.1 = d then (d, v) else kv

/-- One representative in-place mutation performed by render_policy_editor
(streamlit_app.py line 115, policy["weights"] = weights): setting a
dimension weight through the reference the editor was handed.  When that
reference is the aliased global default, the global object itself is
written. -/
def editSetWeight (σ : ProcState) (r : PolicyRef) (d : String) (v : ℚ) :
    ProcState × PolicyRef :=
  match r with
  | .globalDefault =>
    (⟨{ σ.defaultPolicy with
        weights := updateWeight σ.defaultPolicy.weights d v }⟩,
      .globalDefault)
  | .fresh p => (σ, .fresh { p with weights := updateWeight p.weights d v })

/-- A fact record with everything absent or empty, used as a concrete
evaluation point. -/
def emptyFacts : FactRecord :=
  ⟨"", none, [], [], none, 0, none, 0, none, ""⟩

/-- A policy whose six dimension weights are all zero. -/
def zeroWeightPolicy : Policy :=
  { DEFAULT_POLICY with
    weights := [("license", 0), ("data_transparency", 0),
      ("security_provenance", 0), ("maturity_support", 0),
      ("compliance_alignment", 0), ("technical_feasibility", 0)] }

/-- Shape of every string captured by the pattern: two nonempty runs of
characters outside the class, joined by a slash. -/
def GoodSeg (r : List Char) : Prop :=
  ∃ a b, r = a ++ '/' :: b ∧ a ≠ [] ∧ b ≠ [] ∧
    (∀ c ∈ a, badChar c = false) ∧ (∀ c ∈ b, badChar c = false)

/-- evaluate_dimension (streamlit_app.py lines 196-255), the six-branch
rule evaluator.  Numeric interpolation inside rationale strings uses
`toString` of the rational as a stand-in for Python float formatting; no
theorem below depends on those interpolated texts. -/

example : load_policy .notFound = .ok DEFAULT_POLICY := rfl

example : load_policy .failed = .error () := rfl

example : extract_repo_id "huggingface.co/a/b " = "a/b " := by decide

example : extract_repo_id "a/b " = "a/b" := by decide

example : extract_repo_id "https://huggingface.co/models/foo/bar" = "foo/bar" := by decide

example : extract_repo_id "huggingface.co/models/foo" = "models/foo" := by decide

example : extract_repo_id "huggingface.co//x/y" = "huggingface.co//x/y" := by decide

example : extract_repo_id "  meta-llama/Llama-3.1-8B  " = "meta-llama/Llama-3.1-8B" := by decide

example : extract_repo_id "huggingface.co/models/a?q huggingface.co/c/d" = "models/a" := by decide

example : hf_modelcard_to_md.extract_repo_id " a " = " a " := by decide

example : normalize_license (some " ") = "" := by decide

example : normalize_license (some "") = "unknown" := by decide

example : normalize_license (some "Apache 2") = "apache-2.0" := by decide

example : normalize_license none = "unknown" := by decide

/-- Unfolding of the license branch of evaluate_dimension. -/
lemma evalLicense_eq (m : FactRecord) (pol : Policy) :
    evaluate_dimension "license" m pol =
      (if normalize_license m.license ∈ pol.licenseAllow then
        ⟨0, "License " ++ normalize_license m.license ++ " is allowed"⟩
      else if normalize_license m.license ∈ pol.licenseWarn then
        ⟨1, "License " ++ normalize_license m.license ++ " requires caution"⟩
      else if normalize_license m.license ∈ pol.licenseDeny then
        ⟨2, "License " ++ normalize_license m.license ++ " is not permitted"⟩
      else ⟨2, "License unknown or missing"⟩) := rfl

/-- Unfolding of the data-transparency branch of evaluate_dimension. -/
lemma evalData_eq (m : FactRecord) (pol : Policy) :
    evaluate_dimension "data_transparency" m pol =
      (if pol.requireAnyOf.any (fun f => (m.get f).truthy) then
        ⟨0, "Datasets/training data disclosed"⟩
      else ⟨1, "Data sources unclear"⟩) := rfl

/-- Unfolding of the compliance-alignment branch of evaluate_dimension. -/
lemma evalCompliance_eq (m : FactRecord) (pol : Policy) :
    evaluate_dimension "compliance_alignment" m pol =
      (if pol.keywordsBad.any
          (fun k => hasSub (lowerStr m.card_text).data k.data) then
        ⟨2, "Problematic compliance language in card"⟩
      else if pol.keywordsOk.any
          (fun k => hasSub (lowerStr m.card_text).data k.data) then
        ⟨0, "Mentions compliance considerations"⟩
      else ⟨1, "No explicit compliance guidance in card"⟩) := rfl

/-- Unfolding of the technical-feasibility branch of evaluate_dimension. -/
lemma evalTech_eq (m : FactRecord) (pol : Policy) :
    evaluate_dimension "technical_feasibility" m pol =
      (match m.params_b with
      | none => ⟨1, "Model size not stated; capacity risk unknown"⟩
      | some p =>
        if p > pol.maxParamsB then
          ⟨2, "Very large model (~" ++ toString p
            ++ "B) may exceed infra appetite"⟩
        else if p > pol.warnParamsB then
          ⟨1, "Large model (~" ++ toString p
            ++ "B); review infra cost/latency"⟩
        else ⟨0, "Model size (~" ++ toString p ++ "B) within appetite"⟩) :=
  rfl

/-- C1 (counterexample): a policy file that exists but cannot be read or
parsed as JSON does not fall back to the default policy; load_policy lets
the exception escape, so the failure is surfaced to the caller as an
error, contradicting the claim at this concrete input. -/
theorem load_policy_failed_is_error :
    load_policy FileRead.failed = Except.error () ∧
    load_policy FileRead.failed ≠ Except.ok DEFAULT_POLICY :=
  ⟨rfl, by simp [load_policy]⟩

/-- C1 (amended): load_policy returns the built-in default policy exactly
when the override file is absent (FileNotFoundError); a file that exists
but cannot be opened or parsed raises, surfacing the failure, and a
parsed file is returned as loaded. -/
theorem load_policy_default_only_on_absent :
    load_policy FileRead.notFound = Except.ok DEFAULT_POLICY ∧
    load_policy FileRead.failed = Except.error () ∧
    ∀ p : Policy, load_policy (FileRead.content p) = Except.ok p :=
  ⟨rfl, rfl, fun _ => rfl⟩

/-- C2: with a parameter count present, the technical-feasibility score is
2 exactly when the count strictly exceeds the policy's max threshold; the
default policy has max 70 and warn 20, and a record with 70 billion
parameters scores 1 under it (at-threshold is warn, not max-exceeded). -/
theorem technical_feasibility_strict_max_boundary :
    (∀ (p : ℚ) (m : FactRecord) (pol : Policy), m.params_b = some p →
      ((evaluate_dimension "technical_feasibility" m pol).score = 2 ↔
        pol.maxParamsB < p)) ∧
    DEFAULT_POLICY.maxParamsB = 70 ∧ DEFAULT_POLICY.warnParamsB = 20 ∧
    ∀ m : FactRecord, m.params_b = some 70 →
      (evaluate_dimension "technical_feasibility" m DEFAULT_POLICY).score
        = 1 := by
  refine ⟨?_, rfl, rfl, ?_⟩
  · intro p m pol h
    rw [evalTech_eq, h]
    dsimp only
    split_ifs with h1 h2 <;> simp_all
  · intro m h
    rw [evalTech_eq, h]
    norm_num [DEFAULT_POLICY]

/-- C2 (witness): the boundary case evaluated at a concrete record. -/
theorem technical_feasibility_strict_max_boundary_witness :
    ({ emptyFacts with params_b := some 70 } : FactRecord).params_b
      = some 70 ∧
    (evaluate_dimension "technical_feasibility"
      { emptyFacts with params_b := some 70 } DEFAULT_POLICY).score = 1 :=
  ⟨rfl, technical_feasibility_strict_max_boundary.2.2.2 _ rfl⟩

/-- C3: the license dimension scores 0 when the normalized license is in
the policy's allow set, else 1 when in the warn set, else 2 (covering both
the deny set and a license matching no set); and a record with an absent
license scores 2 under the default policy (fail-closed: it normalizes to
"unknown", which the default policy denies). -/
theorem license_dimension_scoring :
    ∀ (m : FactRecord) (pol : Policy),
      (normalize_license m.license ∈ pol.licenseAllow →
        (evaluate_dimension "license" m pol).score = 0) ∧
      (normalize_license m.license ∉ pol.licenseAllow →
        normalize_license m.license ∈ pol.licenseWarn →
        (evaluate_dimension "license" m pol).score = 1) ∧
      (normalize_license m.license ∉ pol.licenseAllow →
        normalize_license m.license ∉ pol.licenseWarn →
        (evaluate_dimension "license" m pol).score = 2) ∧
      (m.license = none →
        (evaluate_dimension "license" m DEFAULT_POLICY).score = 2) := by
  intro m pol
  refine ⟨?_, ?_, ?_, ?_⟩
  · intro h; rw [evalLicense_eq]; simp [h]
  · intro h1 h2; rw [evalLicense_eq]; simp [h1, h2]
  · intro h1 h2; rw [evalLicense_eq]
    split_ifs <;> simp_all
  · intro h; rw [evalLicense_eq, h]; decide

/-- C3 (witness): the fail-closed branch at a concrete record with an
absent license. -/
theorem license_dimension_scoring_witness :
    emptyFacts.license = none ∧
    (evaluate_dimension "license" emptyFacts DEFAULT_POLICY).score = 2 :=
  ⟨rfl, (license_dimension_scoring emptyFacts DEFAULT_POLICY).2.2.2 rfl⟩

/-- C4: in the compliance-alignment dimension the bad-keyword check takes
precedence: if both a bad and an ok keyword occur in the lowercased card
text the score is 2; the score is 0 exactly when an ok keyword occurs and
no bad keyword does; and when neither occurs the score is 1. -/
theorem compliance_bad_keyword_precedence :
    ∀ (m : FactRecord) (pol : Policy),
      ((pol.keywordsBad.any
          (fun k => hasSub (lowerStr m.card_text).data k.data)) = true →
        (pol.keywordsOk.any
          (fun k => hasSub (lowerStr m.card_text).data k.data)) = true →
        (evaluate_dimension "compliance_alignment" m pol).score = 2) ∧
      ((evaluate_dimension "compliance_alignment" m pol).score = 0 ↔
        ((pol.keywordsOk.any
            (fun k => hasSub (lowerStr m.card_text).data k.data)) = true ∧
         (pol.keywordsBad.any
            (fun k => hasSub (lowerStr m.card_text).data k.data)) = false)) ∧
      ((pol.keywordsBad.any
          (fun k => hasSub (lowerStr m.card_text).data k.data)) = false →
        (pol.keywordsOk.any
          (fun k => hasSub (lowerStr m.card_text).data k.data)) = false →
        (evaluate_dimension "compliance_alignment" m pol).score = 1) := by
  intro m pol
  rw [evalCompliance_eq]
  refine ⟨?_, ?_, ?_⟩ <;> split_ifs <;> simp_all

/-- C4 (witness): a card text containing both an ok keyword ("gdpr") and a
bad keyword ("unrestricted") of the default policy scores 2. -/
theorem compliance_bad_keyword_precedence_witness :
    (DEFAULT_POLICY.keywordsBad.any
      (fun k => hasSub
        (lowerStr ({ emptyFacts with card_text := "GDPR unrestricted"
          } : FactRecord).card_text).data k.data)) = true ∧
    (DEFAULT_POLICY.keywordsOk.any
      (fun k => hasSub
        (lowerStr ({ emptyFacts with card_text := "GDPR unrestricted"
          } : FactRecord).card_text).data k.data)) = true ∧
    (evaluate_dimension "compliance_alignment"
      { emptyFacts with card_text := "GDPR unrestricted" }
      DEFAULT_POLICY).score = 2 :=
  ⟨by decide, by decide,
    (compliance_bad_keyword_precedence _ DEFAULT_POLICY).1
      (by decide) (by decide)⟩

/-- C8: the data-transparency dimension scores 0 when some required field
of the policy is present and truthy on the record and 1 otherwise, never
2; and with empty datasets, empty training data and an absent data license
the default policy yields score 1 with rationale "Data sources unclear". -/
theorem data_transparency_scoring :
    ∀ (m : FactRecord) (pol : Policy),
      ((evaluate_dimension "data_transparency" m pol).score =
        if pol.requireAnyOf.any (fun f => (m.get f).truthy) then 0
        else 1) ∧
      (evaluate_dimension "data_transparency" m pol).score ≠ 2 ∧
      (m.datasets = [] → m.training_data = [] → m.data_license = none →
        evaluate_dimension "data_transparency" m DEFAULT_POLICY =
          ⟨1, "Data sources unclear"⟩) := by
  intro m pol
  refine ⟨?_, ?_, ?_⟩
  · rw [evalData_eq]; split_ifs <;> rfl
  · rw [evalData_eq]; split_ifs <;> simp
  · intro h1 h2 h3
    rw [evalData_eq]
    simp [DEFAULT_POLICY, FactRecord.get, h1, h2, h3, PyVal.truthy]

/-- C8 (witness): the all-empty record under the default policy. -/
theorem data_transparency_scoring_witness :
    emptyFacts.datasets = [] ∧ emptyFacts.training_data = [] ∧
    emptyFacts.data_license = none ∧
    evaluate_dimension "data_transparency" emptyFacts DEFAULT_POLICY =
      ⟨1, "Data sources unclear"⟩ :=
  ⟨rfl, rfl, rfl,
    (data_transparency_scoring emptyFacts DEFAULT_POLICY).2.2 rfl rfl rfl⟩

/-- C5: score_model's maximum possible total is 2 times the sum of the six
dimension weights, its percentage is the total divided by that maximum
with 0 substituted when the maximum is 0, the band is Green when the
percentage is at most 1/4, Yellow when at most 3/5, else Red; and with all
six weights 0 the percentage is 0 and the band Green for any facts. -/
theorem score_model_aggregation :
    ∀ (m : FactRecord) (pol : Policy),
      (score_model m pol).maxTotal =
        2 * (dims.map fun d => wget pol.weights d).sum ∧
      (score_model m pol).pct =
        (if (score_model m pol).maxTotal = 0 then 0
         else (score_model m pol).total / (score_model m pol).maxTotal) ∧
      (score_model m pol).band =
        (if (score_model m pol).pct ≤ 1/4 then "Green"
         else if (score_model m pol).pct ≤ 3/5 then "Yellow"
         else "Red") ∧
      ((∀ d ∈ dims, wget pol.weights d = 0) →
        (score_model m pol).pct = 0 ∧
        (score_model m pol).band = "Green") := by
  intro m pol
  refine ⟨?_, rfl, rfl, ?_⟩
  · show dims.foldl (fun acc d => acc + 2 * wget pol.weights d) 0 = _
    simp [dims]
    ring
  · intro h
    have hm : (score_model m pol).maxTotal = 0 := by
      show dims.foldl (fun acc d => acc + 2 * wget pol.weights d) 0 = 0
      simp [dims]
      rw [h "license" (by decide), h "data_transparency" (by decide),
        h "security_provenance" (by decide),
        h "maturity_support" (by decide),
        h "compliance_alignment" (by decide),
        h "technical_feasibility" (by decide)]
      norm_num
    have hpct : (score_model m pol).pct = 0 := by
      have hif : (score_model m pol).pct =
          (if (score_model m pol).maxTotal = 0 then 0
           else (score_model m pol).total / (score_model m pol).maxTotal)
        := rfl
      rw [hif, if_pos hm]
    refine ⟨hpct, ?_⟩
    have hb : (score_model m pol).band =
        (if (score_model m pol).pct ≤ 1/4 then "Green"
         else if (score_model m pol).pct ≤ 3/5 then "Yellow"
         else "Red") := rfl
    rw [hb, hpct]
    norm_num

/-- C5 (witness): the all-zero-weights policy at a concrete record. -/
theorem score_model_aggregation_witness :
    (∀ d ∈ dims, wget zeroWeightPolicy.weights d = 0) ∧
    (score_model emptyFacts zeroWeightPolicy).pct = 0 ∧
    (score_model emptyFacts zeroWeightPolicy).band = "Green" :=
  ⟨by decide,
    ((score_model_aggregation emptyFacts zeroWeightPolicy).2.2.2
      (by decide)).1,
    ((score_model_aggregation emptyFacts zeroWeightPolicy).2.2.2
      (by decide)).2⟩

/-- C6: load_policy does not return a fresh deep copy of the built-in
default.  With the override file absent it returns the global
DEFAULT_POLICY object itself, so the policy editor's in-place mutation
(here: setting the license weight to 5) changes the default seen by every
later load in the process: the next fallback load yields license weight 5
instead of the built-in 2. -/
theorem load_policy_aliases_default_mutation_leaks :
    load_policy_ref FileRead.notFound =
      Except.ok PolicyRef.globalDefault ∧
    (let procStart : ProcState := ⟨DEFAULT_POLICY⟩
     let afterEdit :=
       (editSetWeight procStart PolicyRef.globalDefault "license" 5).1
     readPolicy afterEdit PolicyRef.globalDefault ≠ DEFAULT_POLICY ∧
     wget (readPolicy afterEdit PolicyRef.globalDefault).weights "license"
       = 5 ∧
     wget DEFAULT_POLICY.weights "license" = 2) :=
  ⟨rfl, by decide, by decide, by decide⟩

lemma tryCapture_shape {t r : List Char} (h : tryCapture t = some r) :
    GoodSeg r := by
  simp only [tryCapture] at h
  split_ifs at h with hA
  split at h
  case _ rest heq =>
    split_ifs at h with hB
    injection h with h
    refine ⟨_, _, h.symm, hA, hB, ?_, ?_⟩
    · intro c hc
      have := List.mem_takeWhile_imp hc
      simpa using this
    · intro c hc
      have := List.mem_takeWhile_imp hc
      simpa using this
  case _ => exact absurd h (by simp)

lemma tryAt_shape {u r : List Char} (h : tryAt u = some r) : GoodSeg r := by
  simp only [tryAt] at h
  split_ifs at h with h1 h2
  · split at h
    case _ r0 heq =>
      injection h with h
      exact h ▸ tryCapture_shape heq
    case _ => exact tryCapture_shape h
  · exact tryCapture_shape h

lemma searchGroup_shape {l r : List Char} (h : searchGroup l = some r) :
    GoodSeg r := by
  induction l with
  | nil => simp [searchGroup] at h
  | cons c t ih =>
    simp only [searchGroup] at h
    split at h
    case _ r0 heq =>
      injection h with h
      exact h ▸ tryAt_shape heq
    case _ => exact ih h

lemma good_no_slash {a : List Char} (h : ∀ c ∈ a, badChar c = false) :
    ∀ c ∈ a, c ≠ '/' := by
  intro c hc
  have hbc := h c hc
  simp [badChar] at hbc
  exact hbc.1.1

lemma litHF_decomp : litHF = "huggingface.co".data ++ ['/'] := by decide

lemma slash_split_unique :
    ∀ (a c b d : List Char), a ++ '/' :: b = c ++ '/' :: d →
      (∀ x ∈ a, x ≠ '/') → (∀ x ∈ c, x ≠ '/') → a = c ∧ b = d := by
  intro a
  induction a with
  | nil =>
    intro c b d h _ hc
    cases c with
    | nil =>
      simp only [List.nil_append] at h
      injection h with _ h2
      exact ⟨rfl, h2⟩
    | cons y c2 =>
      simp only [List.nil_append, List.cons_append] at h
      injection h with h1 _
      exact absurd h1.symm (hc y (by simp))
  | cons x a2 ih =>
    intro c b d h ha hc
    cases c with
    | nil =>
      simp only [List.cons_append, List.nil_append] at h
      injection h with h1 _
      exact absurd h1 (ha x (by simp))
    | cons y c2 =>
      simp only [List.cons_append] at h
      injection h with h1 h2
      obtain ⟨e1, e2⟩ := ih c2 b d h2 (fun z hz => ha z (by simp [hz]))
        (fun z hz => hc z (by simp [hz]))
      exact ⟨by rw [h1, e1], e2⟩

lemma suffix_split_aux :
    ∀ (v u a b : List Char), v ++ u = a ++ '/' :: b →
      (∃ a2, a2 <:+ a ∧ u = a2 ++ '/' :: b) ∨ u <:+ b := by
  intro v
  induction v with
  | nil =>
    intro u a b hv
    left
    exact ⟨a, List.suffix_refl a, by simpa using hv⟩
  | cons x v2 ih =>
    intro u a b hv
    cases a with
    | nil =>
      simp only [List.cons_append, List.nil_append] at hv
      injection hv with _ h2
      right
      exact ⟨v2, h2⟩
    | cons y a2 =>
      simp only [List.cons_append] at hv
      injection hv with _ h2
      rcases ih u a2 b h2 with ⟨a3, h3, h4⟩ | h5
      · left
        exact ⟨a3, h3.trans (List.suffix_cons y a2), h4⟩
      · right
        exact h5

lemma suffix_split {u a b : List Char} (h : u <:+ a ++ '/' :: b) :
    (∃ a2, a2 <:+ a ∧ u = a2 ++ '/' :: b) ∨ u <:+ b := by
  obtain ⟨v, hv⟩ := h
  exact suffix_split_aux v u a b hv

lemma tryCapture_none_of_good {b : List Char}
    (hgb : ∀ c ∈ b, badChar c = false) : tryCapture b = none := by
  have htake : b.takeWhile (fun c => !badChar c) = b :=
    List.takeWhile_eq_self_iff.2 (by simpa using hgb)
  have hdrop : b.dropWhile (fun c => !badChar c) = [] := by
    have happ := List.takeWhile_append_dropWhile (fun c => !badChar c) b
    rw [htake] at happ
    have hlen := congrArg List.length happ
    simp only [List.length_append] at hlen
    have : (b.dropWhile fun c => !badChar c).length = 0 := by omega
    exact List.eq_nil_of_length_eq_zero this
  simp only [tryCapture, htake, hdrop]
  split_ifs <;> rfl

lemma tryAt_none_of_goodseg {r : List Char} (hr : GoodSeg r) :
    ∀ u, u <:+ r → tryAt u = none := by
  obtain ⟨a, b, hab, _, _, hga, hgb⟩ := hr
  intro u hu
  subst hab
  rcases suffix_split hu with ⟨a2, ha2, rfl⟩ | hub
  · simp only [tryAt]
    split_ifs with h1 h2
    · exfalso
      obtain ⟨t, ht⟩ := h1
      have heq : "huggingface.co".data ++ '/' :: t = a2 ++ '/' :: b := by
        rw [← ht, litHF_decomp, List.append_assoc]
        rfl
      obtain ⟨hA, hB⟩ := slash_split_unique _ _ _ _ heq (by decide)
        (good_no_slash (fun c hc => hga c (ha2.subset hc)))
      have hrest : (a2 ++ '/' :: b).drop litHF.length = b := by
        rw [← ht, List.drop_left]
        exact hB
      rw [hrest] at h2
      have hsl : '/' ∈ b := h2.subset (by decide)
      have := hgb '/' hsl
      simp [badChar] at this
    · obtain ⟨t, ht⟩ := h1
      have heq : "huggingface.co".data ++ '/' :: t = a2 ++ '/' :: b := by
        rw [← ht, litHF_decomp, List.append_assoc]
        rfl
      obtain ⟨hA, hB⟩ := slash_split_unique _ _ _ _ heq (by decide)
        (good_no_slash (fun c hc => hga c (ha2.subset hc)))
      have hrest : (a2 ++ '/' :: b).drop litHF.length = b := by
        rw [← ht, List.drop_left]
        exact hB
      rw [hrest]
      exact tryCapture_none_of_good hgb
    · rfl
  · simp only [tryAt]
    split_ifs with h1 h2
    · exfalso
      have hs : '/' ∈ u := h1.subset (by decide)
      have := hgb '/' (hub.subset hs)
      simp [badChar] at this
    · exfalso
      have hs : '/' ∈ u := h1.subset (by decide)
      have := hgb '/' (hub.subset hs)
      simp [badChar] at this
    · rfl

lemma searchGroup_none_of_tryAt_none {l : List Char}
    (h : ∀ u, u <:+ l → tryAt u = none) : searchGroup l = none := by
  induction l with
  | nil => rfl
  | cons c t ih =>
    simp only [searchGroup]
    rw [h (c :: t) (List.suffix_refl _)]
    exact ih fun u hu => h u (hu.trans (List.suffix_cons c t))

lemma searchGroup_no_rematch {l r : List Char}
    (h : searchGroup l = some r) : searchGroup r = none :=
  searchGroup_none_of_tryAt_none (tryAt_none_of_goodseg
    (searchGroup_shape h))

lemma takeWhile_append_stop {p : Char → Bool} :
    ∀ (A : List Char) (x : Char) (z : List Char),
      (∀ c ∈ A, p c = true) → p x = false →
      (A ++ x :: z).takeWhile p = A ∧ (A ++ x :: z).dropWhile p = x :: z := by
  intro A
  induction A with
  | nil =>
    intro x z _ hx
    constructor <;> simp [List.takeWhile_cons, List.dropWhile_cons, hx]
  | cons c A2 ih =>
    intro x z hA hx
    have hc : p c = true := hA c (by simp)
    simp only [List.cons_append, List.takeWhile_cons, List.dropWhile_cons,
      hc, if_pos]
    obtain ⟨ht, hd⟩ := ih x z (fun d hd => hA d (by simp [hd])) hx
    exact ⟨by rw [ht], hd⟩

lemma takeWhile_ne_nil_append {p : Char → Bool} {rest : List Char}
    (w : List Char) (h : rest.takeWhile p ≠ []) :
    (rest ++ w).takeWhile p ≠ [] := by
  cases rest with
  | nil => simp at h
  | cons c r2 =>
    by_cases hc : p c = true
    · simp [List.cons_append, List.takeWhile_cons, hc]
    · rw [List.takeWhile_cons] at h
      simp only [Bool.not_eq_true] at hc
      rw [hc] at h
      simp at h

lemma tryCapture_extend {t : List Char} (w : List Char)
    (h : (tryCapture t).isSome) : (tryCapture (t ++ w)).isSome := by
  rw [Option.isSome_iff_exists] at h
  obtain ⟨r, hr⟩ := h
  simp only [tryCapture] at hr
  split_ifs at hr with hA
  split at hr
  case _ rest heq =>
    split_ifs at hr with hB
    have hgA : ∀ d ∈ t.takeWhile (fun c => !badChar c),
        (fun c => !badChar c) d = true :=
      fun d hd => List.mem_takeWhile_imp (p := fun c => !badChar c) hd
    have ht : t = t.takeWhile (fun c => !badChar c) ++ '/' :: rest := by
      conv_lhs =>
        rw [← List.takeWhile_append_dropWhile (fun c => !badChar c) t]
      rw [heq]
    obtain ⟨htw, hdw⟩ := takeWhile_append_stop
      (t.takeWhile (fun c => !badChar c)) '/' (rest ++ w) hgA (by decide)
    have hgoal : t ++ w =
        t.takeWhile (fun c => !badChar c) ++ '/' :: (rest ++ w) := by
      conv_lhs => rw [ht]
      simp [List.append_assoc]
    rw [hgoal]
    simp only [tryCapture, htw, hdw]
    rw [if_neg hA]
    have hB2 : (rest ++ w).takeWhile (fun c => !badChar c) ≠ [] :=
      takeWhile_ne_nil_append w hB
    simp [hB2]
  case _ => simp at hr

lemma tryAt_lit (t : List Char) :
    tryAt (litHF ++ t) =
      (if litModels <+: t then
        match tryCapture (t.drop litModels.length) with
        | some r => some r
        | none => tryCapture t
      else tryCapture t) := by
  simp only [tryAt, if_pos (List.prefix_append litHF t), List.drop_left]

lemma tryAt_extend {u : List Char} (w : List Char)
    (h : (tryAt u).isSome) : (tryAt (u ++ w)).isSome := by
  by_cases h1 : litHF <+: u
  · obtain ⟨t, ht⟩ := h1
    subst ht
    rw [tryAt_lit] at h
    rw [List.append_assoc, tryAt_lit]
    by_cases hm : litModels <+: t
    · obtain ⟨t2, ht2⟩ := hm
      subst ht2
      rw [if_pos (List.prefix_append litModels t2), List.drop_left] at h
      rw [List.append_assoc,
        if_pos (List.prefix_append litModels (t2 ++ w)), List.drop_left]
      split
      · simp
      case _ heq2 =>
        split at h
        case _ r0 heq0 =>
          exfalso
          have hx := tryCapture_extend w
            (show (tryCapture t2).isSome by rw [heq0]; simp)
          rw [heq2] at hx
          simp at hx
        case _ =>
          have hx := tryCapture_extend w h
          rw [List.append_assoc] at hx
          exact hx
    · rw [if_neg hm] at h
      by_cases hm2 : litModels <+: t ++ w
      · rw [if_pos hm2]
        split
        · simp
        · exact tryCapture_extend w h
      · rw [if_neg hm2]
        exact tryCapture_extend w h
  · rw [tryAt, if_neg h1] at h
    simp at h

lemma searchGroup_extend {m : List Char} (w : List Char)
    (h : (searchGroup m).isSome) : (searchGroup (m ++ w)).isSome := by
  induction m with
  | nil => simp [searchGroup] at h
  | cons c t ih =>
    simp only [searchGroup] at h
    simp only [List.cons_append, searchGroup, List.append_eq]
    split at h
    case _ r heq =>
      have hx : (tryAt ((c :: t) ++ w)).isSome :=
        tryAt_extend w (by rw [heq]; simp)
      rw [List.cons_append] at hx
      rw [Option.isSome_iff_exists] at hx
      obtain ⟨r2, hr2⟩ := hx
      rw [hr2]
      simp
    case _ =>
      split
      · simp
      · exact ih h

lemma searchGroup_prepend {m : List Char} (v : List Char)
    (h : (searchGroup m).isSome) : (searchGroup (v ++ m)).isSome := by
  induction v with
  | nil => simpa using h
  | cons x v2 ih =>
    simp only [List.cons_append, searchGroup]
    split
    · simp
    · exact ih

lemma rev_decomp (m : List Char) :
    m = (m.reverse.dropWhile isWS).reverse ++
      (m.reverse.takeWhile isWS).reverse := by
  rw [← List.reverse_append, List.takeWhile_append_dropWhile,
    List.reverse_reverse]

lemma strip_decomp (l : List Char) :
    ∃ v w, l = v ++ stripChars l ++ w := by
  refine ⟨l.takeWhile isWS,
    ((l.dropWhile isWS).reverse.takeWhile isWS).reverse, ?_⟩
  conv_lhs => rw [← List.takeWhile_append_dropWhile isWS l]
  rw [List.append_assoc]
  congr 1
  exact rev_decomp (l.dropWhile isWS)

lemma searchGroup_strip_none {l : List Char} (h : searchGroup l = none) :
    searchGroup (stripChars l) = none := by
  by_contra hc
  have hs : (searchGroup (stripChars l)).isSome := by
    rw [← Option.ne_none_iff_isSome]
    exact hc
  obtain ⟨v, w, hl⟩ := strip_decomp l
  have h2 := searchGroup_prepend v (searchGroup_extend w hs)
  rw [← List.append_assoc, ← hl, h] at h2
  simp at h2

/-- C7 (counterexample): extraction is not idempotent.  The character
class of the pattern admits whitespace, so the input
"huggingface.co/a/b " captures "a/b " with its trailing space, and a
second extraction finds no URL and strips it to "a/b". -/
theorem extract_repo_id_not_idempotent_on_trailing_space :
    extract_repo_id (extract_repo_id "huggingface.co/a/b ") ≠
      extract_repo_id "huggingface.co/a/b " := by decide

/-- C7 (amended): a second application of extract_repo_id equals the strip
of the first result: the captured group can never re-match the pattern
(its two segments contain no slash beyond the separator, so the literal
host cannot be followed by a captured pair), and a non-matching input is
already stripped, so only the final strip can differ.  Idempotence as
originally claimed holds exactly when the first result carries no
leading or trailing whitespace. -/
theorem extract_repo_id_twice_eq_strip (s : String) :
    extract_repo_id (extract_repo_id s) = pyStrip (extract_repo_id s) := by
  cases h : searchGroup s.data with
  | some r =>
    have h1 : extract_repo_id s = ⟨r⟩ := by
      simp only [extract_repo_id, h]
    rw [h1]
    have h2 : searchGroup (String.mk r).data = none :=
      searchGroup_no_rematch h
    simp only [extract_repo_id, h2]
  | none =>
    have h1 : extract_repo_id s = pyStrip s := by
      simp only [extract_repo_id, h]
    rw [h1]
    have h2 : searchGroup (pyStrip s).data = none :=
      searchGroup_strip_none h
    simp only [extract_repo_id, h2]

/-- C9 (counterexample): the two extract_repo_id functions are not the
same function: on the non-matching input " a " the streamlit_app version
strips to "a" while the hf_modelcard_to_md version returns " a "
unchanged (its fallback has no strip). -/
theorem extract_repo_id_variants_differ :
    extract_repo_id " a " ≠ hf_modelcard_to_md.extract_repo_id " a " := by
  decide

/-- C9 (amended): the two extract_repo_id functions agree on every input
that is already whitespace-trimmed (in particular on every input where
the URL pattern matches, where both return the captured group); on other
non-matching inputs they differ exactly by the final strip. -/
theorem extract_repo_id_variants_agree_on_trimmed (s : String)
    (h : pyStrip s = s) :
    extract_repo_id s = hf_modelcard_to_md.extract_repo_id s := by
  cases hsg : searchGroup s.data with
  | some r =>
    simp only [extract_repo_id, hf_modelcard_to_md.extract_repo_id, hsg]
  | none =>
    simp only [extract_repo_id, hf_modelcard_to_md.extract_repo_id, hsg]
    exact h

/-- C9 (witness): agreement at a concrete trimmed input. -/
theorem extract_repo_id_variants_agree_on_trimmed_witness :
    pyStrip "meta-llama/Llama-3.1-8B" = "meta-llama/Llama-3.1-8B" ∧
    extract_repo_id "meta-llama/Llama-3.1-8B" =
      hf_modelcard_to_md.extract_repo_id "meta-llama/Llama-3.1-8B" :=
  ⟨by decide, extract_repo_id_variants_agree_on_trimmed _ (by decide)⟩

/-- Keys found by List.lookup are present in the association list. -/
lemma lookup_mem {l : List (Char × Char)} {a b : Char}
    (h : l.lookup a = some b) : (a, b) ∈ l := by
  induction l with
  | nil => simp [List.lookup] at h
  | cons p t ih =>
    obtain ⟨k, v⟩ := p
    simp only [List.lookup] at h
    split at h
    case _ heq =>
      injection h with h
      have hak : a = k := by simpa using heq
      subst hak
      subst h
      exact List.mem_cons_self _ _
    case _ heq =>
      exact List.mem_cons_of_mem _ (ih h)

lemma lowerChar_cases (c : Char) :
    lowerChar c = c ∨ lowerChar c ∈ "abcdefghijklmnopqrstuvwxyz".data := by
  unfold lowerChar
  cases h : lowerTable.lookup c with
  | none =>
    left
    rfl
  | some v =>
    right
    have hmem : (c, v) ∈ lowerTable := lookup_mem h
    have hall : ∀ p ∈ lowerTable,
        p.2 ∈ "abcdefghijklmnopqrstuvwxyz".data := by decide
    simpa using hall _ hmem

lemma lower_lower (c : Char) : lowerChar (lowerChar c) = lowerChar c := by
  rcases lowerChar_cases c with h | h
  · rw [h]
    exact h
  · have hfix : ∀ d ∈ "abcdefghijklmnopqrstuvwxyz".data, lowerChar d = d :=
      by decide
    exact hfix _ h

lemma lower_nonws {c : Char} (h : isWS c = false) :
    isWS (lowerChar c) = false := by
  rcases lowerChar_cases c with h2 | h2
  · rw [h2]
    exact h
  · have hws : ∀ d ∈ "abcdefghijklmnopqrstuvwxyz".data, isWS d = false :=
      by decide
    exact hws _ h2

lemma phi_nonws {c : Char} (h : isWS c = false) :
    isWS (spaceHyphenChar (lowerChar c)) = false := by
  unfold spaceHyphenChar
  split_ifs with hsp
  · decide
  · exact lower_nonws h

lemma phi_idem (c : Char) :
    spaceHyphenChar (lowerChar (spaceHyphenChar (lowerChar c))) =
      spaceHyphenChar (lowerChar c) := by
  by_cases hsp : lowerChar c = ' '
  · rw [hsp]
    decide
  · have h1 : spaceHyphenChar (lowerChar c) = lowerChar c := by
      unfold spaceHyphenChar
      rw [if_neg hsp]
    rw [h1, lower_lower, h1]

lemma head_dropWhile {p : Char → Bool} {l : List Char} :
    ∀ c, (l.dropWhile p).head? = some c → p c = false := by
  induction l with
  | nil =>
    intro c h
    simp [List.dropWhile] at h
  | cons x t ih =>
    intro c h
    rw [List.dropWhile_cons] at h
    by_cases hx : p x = true
    · rw [if_pos hx] at h
      exact ih c h
    · rw [if_neg hx] at h
      simp at h
      rw [← h]
      simpa using hx

lemma strip_head (l : List Char) :
    ∀ c, (stripChars l).head? = some c → isWS c = false := by
  intro c h
  have hpre : stripChars l <+: l.dropWhile isWS := by
    unfold stripChars
    have h1 : (l.dropWhile isWS).reverse.dropWhile isWS <:+
        (l.dropWhile isWS).reverse := List.dropWhile_suffix isWS
    rw [show (l.dropWhile isWS).reverse.dropWhile isWS =
      ((l.dropWhile isWS).reverse.dropWhile isWS).reverse.reverse from
      (List.reverse_reverse _).symm] at h1
    exact List.reverse_suffix.1 h1
  obtain ⟨tail2, ht⟩ := hpre
  cases hsc : stripChars l with
  | nil =>
    rw [hsc] at h
    simp at h
  | cons c0 rest =>
    rw [hsc] at h
    simp at h
    have hh : (l.dropWhile isWS).head? = some c := by
      rw [← ht, hsc, List.cons_append]
      simp [h]
    exact head_dropWhile _ hh

lemma strip_rev_head (l : List Char) :
    ∀ c, (stripChars l).reverse.head? = some c → isWS c = false := by
  intro c h
  unfold stripChars at h
  rw [List.reverse_reverse] at h
  exact head_dropWhile _ h

lemma strip_of_clean {m : List Char}
    (h1 : ∀ c, m.head? = some c → isWS c = false)
    (h2 : ∀ c, m.reverse.head? = some c → isWS c = false) :
    stripChars m = m := by
  have hd : m.dropWhile isWS = m := by
    cases m with
    | nil => rfl
    | cons x t => simp [List.dropWhile_cons, h1 x rfl]
  have hd2 : m.reverse.dropWhile isWS = m.reverse := by
    cases hmr : m.reverse with
    | nil => simp
    | cons x t =>
      have hx := h2 x (by rw [hmr]; rfl)
      simp [List.dropWhile_cons, hx]
  unfold stripChars
  rw [hd, hd2, List.reverse_reverse]

lemma normCore_clean_head (l : List Char) :
    ∀ c, (normCore l).head? = some c → isWS c = false := by
  intro c h
  unfold normCore at h
  rw [List.head?_map, List.head?_map] at h
  cases hh : (stripChars l).head? with
  | none =>
    rw [hh] at h
    simp at h
  | some c0 =>
    rw [hh] at h
    simp at h
    rw [← h]
    exact phi_nonws (strip_head l c0 hh)

lemma normCore_clean_rev (l : List Char) :
    ∀ c, (normCore l).reverse.head? = some c → isWS c = false := by
  intro c h
  unfold normCore at h
  rw [← List.map_reverse, ← List.map_reverse, List.head?_map,
    List.head?_map] at h
  cases hh : (stripChars l).reverse.head? with
  | none =>
    rw [hh] at h
    simp at h
  | some c0 =>
    rw [hh] at h
    simp at h
    rw [← h]
    exact phi_nonws (strip_rev_head l c0 hh)

lemma normCore_idem (l : List Char) :
    normCore (normCore l) = normCore l := by
  have hstrip : stripChars (normCore l) = normCore l :=
    strip_of_clean (normCore_clean_head l) (normCore_clean_rev l)
  show ((stripChars (normCore l)).map lowerChar).map spaceHyphenChar =
    normCore l
  rw [hstrip]
  show ((((stripChars l).map lowerChar).map spaceHyphenChar).map
    lowerChar).map spaceHyphenChar =
    ((stripChars l).map lowerChar).map spaceHyphenChar
  simp only [List.map_map]
  exact List.map_congr_left fun a _ => phi_idem a

lemma aliasGet_cases (s : String) :
    aliasGet s = s ∨ aliasGet s ∈ (["apache-2.0", "mit", "bsd-3-clause",
      "gpl-3.0", "cc-by-nc-4.0"] : List String) := by
  unfold aliasGet
  split_ifs <;> first
    | (left; rfl)
    | (right; decide)

/-- C10 (counterexample): normalize_license is not idempotent.  The
whitespace-only license " " is truthy, so it passes the falsy guard and
normalizes to the empty string, but the empty string re-normalizes to
"unknown". -/
theorem normalize_license_not_idempotent_on_space :
    normalize_license (some (normalize_license (some " "))) ≠
      normalize_license (some " ") := by decide

/-- C10 (amended): normalize_license is idempotent on every input whose
normalization is nonempty: "unknown", every value of the alias table's
range, and every passed-through normalized string are fixed points.  The
only failures are truthy whitespace-only strings, which normalize to the
empty string while the empty string re-normalizes to "unknown". -/
theorem normalize_license_idempotent_on_nonempty (lic : Option String)
    (hne : normalize_license lic ≠ "") :
    normalize_license (some (normalize_license lic)) =
      normalize_license lic := by
  cases lic with
  | none => decide
  | some l =>
    by_cases hl : l = ""
    · subst hl
      decide
    · have hred : normalize_license (some l) = aliasGet ⟨normCore l.data⟩
        := by simp [normalize_license, hl]
      rw [hred] at hne ⊢
      rcases aliasGet_cases ⟨normCore l.data⟩ with hfix | hmem
      · rw [hfix] at hne ⊢
        simp only [normalize_license]
        rw [if_neg hne]
        show aliasGet ⟨normCore (normCore l.data)⟩ = ⟨normCore l.data⟩
        rw [normCore_idem]
        exact hfix
      · have hall : ∀ v ∈ (["apache-2.0", "mit", "bsd-3-clause",
            "gpl-3.0", "cc-by-nc-4.0"] : List String),
            normalize_license (some v) = v := by decide
        exact hall _ hmem

/-- C10 (witness): idempotence at the concrete input "MIT". -/
theorem normalize_license_idempotent_on_nonempty_witness :
    normalize_license (some "MIT") ≠ "" ∧
    normalize_license (some (normalize_license (some "MIT"))) =
      normalize_license (some "MIT") :=
  ⟨by decide, normalize_license_idempotent_on_nonempty _ (by decide)⟩
